import Mathlib

/-!
Verification development for a minimal WebSocket server
(`server.py` and `toy_websocket_frame.py`).

Modelling conventions, used throughout:

* Python `bytes` values are `List Nat` (each element a byte value);
  Python `str` values are `List Char` (or `String` where convenient).
* Python indexing `data[i]` is `List.getD data i 0`; every theorem below
  only exercises it on in-bounds indices, matching the non-crashing runs
  of the source.
* Python slicing `data[a:b]` is `(data.drop a).take (b - a)` and
  `data[a:]` is `data.drop a`.
* Python `bytes(n)` (for an integer `n`) is `List.replicate n 0`,
  the length-`n` zero byte string.
* `int.from_bytes(bs, byteorder='big')` is `fromBytesBE`.
* Fallible Python code (uncaught exceptions such as unpacking errors or
  `float(...)` failures) is modelled with `Option`, `none` being a crash.
* Library calls (`hashlib.sha1`, `base64.b64encode`, `str.split`,
  `str.lower`, `dict`, `float` on plain decimal literals) are embedded by
  their documented algorithms.
* The reactor's socket lists and the per-handler `recv` loops are
  modelled by explicit state passing: a handler takes the list of
  successive `recv` results and the registry, and returns the new
  registry together with the messages sent and the number of reads.
-/

/-- Big-endian interpretation of a byte string, modelling
`int.from_bytes(bs, byteorder='big')`. -/
def fromBytesBE (bs : List Nat) : Nat :=
  bs.foldl (fun a b => a * 256 + b) 0

/-! ## Frame decoder (`toy_websocket_frame.py`, class `WebsocketFrame`) -/
/-- The fields of the Python class `WebsocketFrame` after
`populateFromWebsocketFrameMessage` has run.  Flag fields keep the raw
masked byte values exactly as the Python does (`_fin` is `0` or `128`,
not a boolean, and so on). -/
structure WebsocketFrame where
  fin : Nat
  rsv1 : Nat
  rsv2 : Nat
  rsv3 : Nat
  opcode : Nat
  mask : Nat
  payload_length : Nat
  mask_key_start : Nat
  masking_key : List Nat
  payload_data : List Nat
deriving Repr, DecidableEq

/-- Model of `WebsocketFrame._parse_payload_length`: returns the pair
`(payload_length, mask_key_start)`.  The source computes
`data_in_bytes[1] & 0b01111111`; on `126` it reads
`bytes(126) + data_in_bytes[2:4]` big-endian and sets the mask offset
to `4`; on `127` it reads `bytes(127) + data_in_bytes[2:9]` big-endian
(the slice `[2:9]` is seven bytes) and sets the mask offset to `10`. -/
def parse_payload_length (data : List Nat) : Nat × Nat :=
  let pl := data.getD 1 0 &&& 127
  if pl = 126 then
    (fromBytesBE (List.replicate 126 0 ++ (data.drop 2).take 2), 4)
  else if pl = 127 then
    (fromBytesBE (List.replicate 127 0 ++ (data.drop 2).take 7), 10)
  else
    (pl, 2)

/-- The XOR pass of `WebsocketFrame._parse_payload`, acting on the bytes
with a running index `i`: models
`[byte ^ self._masking_key[i % 4] for i, byte in enumerate(encoded_payload)]`
starting at index `i`. -/
def maskFrom (key : List Nat) : Nat → List Nat → List Nat
  | _, [] => []
  | i, b :: rest => (b ^^^ key.getD (i % 4) 0) :: maskFrom key (i + 1) rest

/-- The masking rule applied from index `0`, as in the source's
`enumerate(encoded_payload)`. -/
def maskBytes (key : List Nat) (p : List Nat) : List Nat :=
  maskFrom key 0 p

/-- Model of `WebsocketFrame._parse_payload`.  On zero length the payload
stays `b''`; when masked, the wire bytes from `mask_key_start + 4`
*to the end of the buffer* are XOR-decoded; when unmasked, the bytes from
`mask_key_start` to the end of the buffer are taken verbatim. -/
def parse_payload (mask payload_length mask_key_start : Nat)
    (masking_key : List Nat) (data : List Nat) : List Nat :=
  if payload_length = 0 then []
  else if mask ≠ 0 then maskBytes masking_key (data.drop (mask_key_start + 4))
  else data.drop mask_key_start

/-- Model of `WebsocketFrame.populateFromWebsocketFrameMessage`:
`_parse_flags`, `_parse_payload_length`, `_maybe_parse_masking_key`
(the key is the 4-byte slice at `mask_key_start`, read only when the
mask bit is set) and `_parse_payload`, in source order. -/
def populateFromWebsocketFrameMessage (data : List Nat) : WebsocketFrame :=
  let b0 := data.getD 0 0
  let b1 := data.getD 1 0
  let plm := parse_payload_length data
  let mask := b1 &&& 128
  let mkey := if mask ≠ 0 then (data.drop plm.2).take 4 else []
  { fin := b0 &&& 128
    rsv1 := b0 &&& 64
    rsv2 := b0 &&& 32
    rsv3 := b0 &&& 16
    opcode := b0 &&& 15
    mask := mask
    payload_length := plm.1
    mask_key_start := plm.2
    masking_key := mkey
    payload_data := parse_payload mask plm.1 plm.2 mkey data }

/-! ## Accept key derivation (`server.py`, `generate_sec_websocket_accept`)
The source calls Python's `hashlib.sha1` and `base64.b64encode`; those
library primitives are embedded below by their standard algorithms
(FIPS 180-1 SHA-1 and RFC 4648 base64), over byte lists.  UTF-8 encoding
(`str.encode()`) is modelled as the code-point map, which coincides with
UTF-8 on the ASCII strings the handshake exchanges. -/
def rotl32 (k n : Nat) : Nat :=
  ((n <<< k) % 4294967296) ||| (n >>> (32 - k))

def toBytesBE (k n : Nat) : List Nat :=
  (List.range k).map (fun i => (n >>> (8 * (k - 1 - i))) % 256)

def chunksOf64Aux : Nat → List Nat → List (List Nat)
  | _, [] => []
  | 0, _ => []
  | fuel + 1, x :: xs => ((x :: xs).take 64) :: chunksOf64Aux fuel ((x :: xs).drop 64)

def chunksOf64 (l : List Nat) : List (List Nat) :=
  chunksOf64Aux l.length l

def sha1ExtendWords (w : List Nat) : List Nat :=
  (List.range 64).foldl
    (fun acc _ =>
      let l := acc.length
      acc ++ [rotl32 1 (acc.getD (l - 3) 0 ^^^ acc.getD (l - 8) 0 ^^^
        acc.getD (l - 14) 0 ^^^ acc.getD (l - 16) 0)])
    w

def sha1Block (h : List Nat) (block : List Nat) : List Nat :=
  let w := sha1ExtendWords
    ((List.range 16).map (fun i => fromBytesBE ((block.drop (4 * i)).take 4)))
  let st := (List.range 80).foldl
    (fun (st : Nat × Nat × Nat × Nat × Nat) i =>
      let a := st.1
      let b := st.2.1
      let c := st.2.2.1
      let d := st.2.2.2.1
      let e := st.2.2.2.2
      let f :=
        if i < 20 then (b &&& c) ||| ((4294967295 ^^^ b) &&& d)
        else if i < 40 then b ^^^ c ^^^ d
        else if i < 60 then (b &&& c) ||| (b &&& d) ||| (c &&& d)
        else b ^^^ c ^^^ d
      let k :=
        if i < 20 then 1518500249
        else if i < 40 then 1859775393
        else if i < 60 then 2400959708
        else 3395469782
      let temp := (rotl32 5 a + f + e + k + w.getD i 0) % 4294967296
      (temp, a, rotl32 30 b, c, d))
    (h.getD 0 0, h.getD 1 0, h.getD 2 0, h.getD 3 0, h.getD 4 0)
  [(h.getD 0 0 + st.1) % 4294967296,
   (h.getD 1 0 + st.2.1) % 4294967296,
   (h.getD 2 0 + st.2.2.1) % 4294967296,
   (h.getD 3 0 + st.2.2.2.1) % 4294967296,
   (h.getD 4 0 + st.2.2.2.2) % 4294967296]

def sha1 (msg : List Nat) : List Nat :=
  let padded := msg ++ 128 :: List.replicate ((64 - ((msg.length + 9) % 64)) % 64) 0
    ++ toBytesBE 8 (8 * msg.length)
  let hs := (chunksOf64 padded).foldl sha1Block
    [1732584193, 4023233417, 2562383102, 271733878, 3285377520]
  hs.foldr (fun h acc => toBytesBE 4 h ++ acc) []

def b64Alphabet : List Char :=
  "ABCDEFGHIJKLMNOPQRSTUVWXYZabcdefghijklmnopqrstuvwxyz0123456789+/".data

def b64encode : List Nat → List Char
  | [] => []
  | [a] =>
    [b64Alphabet.getD (a >>> 2) 'A', b64Alphabet.getD ((a &&& 3) <<< 4) 'A',
     '=', '=']
  | [a, b] =>
    [b64Alphabet.getD (a >>> 2) 'A',
     b64Alphabet.getD (((a &&& 3) <<< 4) ||| (b >>> 4)) 'A',
     b64Alphabet.getD ((b &&& 15) <<< 2) 'A', '=']
  | a :: b :: c :: rest =>
    [b64Alphabet.getD (a >>> 2) 'A',
     b64Alphabet.getD (((a &&& 3) <<< 4) ||| (b >>> 4)) 'A',
     b64Alphabet.getD (((b &&& 15) <<< 2) ||| (c >>> 6)) 'A',
     b64Alphabet.getD (c &&& 63) 'A'] ++ b64encode rest

def MAGIC_WEBSOCKET_UUID_STRING : String := "258EAFA5-E914-47DA-95CA-C5AB0DC85B11"

def strBytes (s : String) : List Nat := s.data.map Char.toNat

def generate_sec_websocket_accept (sec_websocket_key : String) : String :=
  ⟨b64encode (sha1 (strBytes (sec_websocket_key ++ MAGIC_WEBSOCKET_UUID_STRING)))⟩

/-! Python `str.split(sep)` for a nonempty separator, over `List Char`,
with structural fuel so that the kernel can evaluate it. -/
def splitSeqAux (sep : List Char) : Nat → List Char → List (List Char)
  | _, [] => [[]]
  | 0, s => [s]
  | fuel + 1, c :: rest =>
    if sep.isPrefixOf (c :: rest) then
      [] :: splitSeqAux sep fuel ((c :: rest).drop sep.length)
    else
      match splitSeqAux sep fuel rest with
      | [] => [[c]]
      | g :: gs => (c :: g) :: gs

def splitSeq (sep s : List Char) : List (List Char) :=
  splitSeqAux sep s.length s

/-- Whether `sep` occurs as a contiguous subsequence of `l`. -/
def containsSeq (sep : List Char) : List Char → Bool
  | [] => sep.isPrefixOf []
  | c :: rest => sep.isPrefixOf (c :: rest) || containsSeq sep rest

/-- The head group of a split: `s.split(sep)[0]`. -/
def headGroup (sep s : List Char) : List Char :=
  (splitSeq sep s).getD 0 []

def crlf : List Char := ['\r', '\n']

def crlf2 : List Char := ['\r', '\n', '\r', '\n']

def colonSpace : List Char := [':', ' ']

/-- `'\r\n'.join(lines)`: the shape of the pre-terminator section of an
HTTP request, request line first. -/
def joinCRLF : List (List Char) → List Char
  | [] => []
  | [l] => l
  | l :: l' :: ls => l ++ crlf ++ joinCRLF (l' :: ls)

/-- Python `str.lower()` per character. -/
def lowerChars (l : List Char) : List Char := l.map Char.toLower

/-- Python `dict` over string keys, as an insertion-ordered association
list with unique keys: `d[k] = v` overwrites in place or appends. -/
def dictInsert (m : List (List Char × List Char)) (k v : List Char) :
    List (List Char × List Char) :=
  if m.any (fun p => p.1 == k) then
    m.map (fun p => if p.1 == k then (k, v) else p)
  else
    m ++ [(k, v)]

/-- Python `d.get(k)`: the value stored at `k`, if any. -/
def dictGet (m : List (List Char × List Char)) (k : List Char) :
    Option (List Char) :=
  (m.find? (fun p => p.1 == k)).map (fun p => p.2)

/-- Python `k in d`. -/
def dictMem (m : List (List Char × List Char)) (k : List Char) : Bool :=
  m.any (fun p => p.1 == k)

/-- The header loop of `parse_request`: each line must split on `': '`
into exactly a name and a value (`[header_name, value] = header_entry.split(': ')`,
anything else raising), and is stored under the lower-cased name. -/
def headerFold (m : List (List Char × List Char)) :
    List (List Char) → Option (List (List Char × List Char))
  | [] => some m
  | entry :: rest =>
    match splitSeq colonSpace entry with
    | [n, v] => headerFold (dictInsert m (lowerChars n) v) rest
    | _ => none

def insertAll (m l : List (List Char × List Char)) :
    List (List Char × List Char) :=
  l.foldl (fun m p => dictInsert m p.1 p.2) m

/-- One HTTP header line on the wire, `name ++ ': ' ++ value`. -/
def headerLine (p : List Char × List Char) : List Char :=
  p.1 ++ colonSpace ++ p.2

/-- Model of `parse_request` (`server.py`).  The source computes
`split_request = request.split('\r\n\r\n')[0].split('\r\n')`, destructures
`split_request[0].split(' ')` into exactly three tokens (anything else
raising, modelled as `none`) and folds the remaining lines into the
header dict.  The split expression is written out twice below in place of
the source's local variable; the value is identical. -/
def parse_request (request : List Char) :
    Option (List Char × List Char × List Char × List (List Char × List Char)) :=
  match splitSeq [' ']
      ((splitSeq crlf ((splitSeq crlf2 request).getD 0 [])).getD 0 []) with
  | [method, target, http_version] =>
    (headerFold []
        ((splitSeq crlf ((splitSeq crlf2 request).getD 0 [])).drop 1)).map
      (fun headers_map => (method, target, http_version, headers_map))
  | _ => none

/-- The request line `method ++ ' ' ++ target ++ ' ' ++ version`. -/
def requestLine (m t v : List Char) : List Char :=
  m ++ [' '] ++ (t ++ [' '] ++ v)

/-- A full wire request: request line and header lines joined by CRLF,
then the blank-line terminator, then an ignored body. -/
def buildRequest (m t v : List Char) (hs : List (List Char × List Char))
    (body : List Char) : List Char :=
  joinCRLF (requestLine m t v :: hs.map headerLine) ++ crlf2 ++ body

def natOfDigits (ds : List Char) : Nat :=
  ds.foldl (fun a c => a * 10 + (c.toNat - 48)) 0

/-- Python `float(s)` restricted to plain decimal literals
(`digits`, `digits.digits`, `.digits`, `digits.`), as an exact rational;
other inputs raise, modelled as `none`. -/
def parseFloat (cs : List Char) : Option ℚ :=
  let ip := cs.takeWhile (fun c => c.isDigit)
  match cs.dropWhile (fun c => c.isDigit) with
  | [] => if ip.isEmpty then none else some (natOfDigits ip : ℚ)
  | '.' :: fp =>
    if fp.all (fun c => c.isDigit) && !(ip.isEmpty && fp.isEmpty) then
      some ((natOfDigits ip : ℚ) + (natOfDigits fp : ℚ) / (10 : ℚ) ^ fp.length)
    else none
  | _ => none

/-- `float(http_version.split('/')[1])`: `none` when there is no second
component or the literal does not parse. -/
def http_version_number (http_version : List Char) : Option ℚ :=
  match (splitSeq ['/'] http_version).drop 1 with
  | [] => none
  | second :: _ => parseFloat second

/-- The conjunction computed by `is_valid_ws_handshake_request` once the
HTTP version number has been parsed: `is_get`, `http_version_enough` and
`headers_valid`, exactly as in the source. -/
def ws_handshake_checks (method : List Char) (http_version_num : ℚ)
    (headers_map : List (List Char × List Char)) : Bool :=
  let is_get := method == "GET".data
  let http_version_enough := decide (http_version_num ≥ 11 / 10)
  let headers_valid :=
    (dictMem headers_map "upgrade".data &&
      (dictGet headers_map "upgrade".data == some "websocket".data)) &&
    (dictMem headers_map "connection".data &&
      (dictGet headers_map "connection".data == some "Upgrade".data)) &&
    dictMem headers_map "sec-websocket-key".data
  is_get && http_version_enough && headers_valid

/-- Model of `is_valid_ws_handshake_request` (`server.py`).  The `target`
parameter is accepted and ignored, as in the source.  A version string on
which `float(http_version.split('/')[1])` raises is `none`. -/
def is_valid_ws_handshake_request (method target http_version : List Char)
    (headers_map : List (List Char × List Char)) : Option Bool :=
  (http_version_number http_version).map
    (fun http_version_num =>
      ws_handshake_checks method http_version_num headers_map)

def WS_ENDPOINT : List Char := "/websocket".data

def exampleHeaders : List (List Char × List Char) :=
  [("upgrade".data, "websocket".data),
   ("connection".data, "Upgrade".data),
   ("sec-websocket-key".data, "dGhlIHNhbXBsZSBub25jZQ==".data)]

/-! ## Connection registry and handlers (`server.py`) -/
/-- The two socket lists of the reactor: `input_sockets` (all registered
sockets) and `ws_sockets` (those upgraded to WebSocket).  Sockets are
opaque handles, modelled as naturals. -/
structure Registry where
  input_sockets : List Nat
  ws_sockets : List Nat
deriving Repr, DecidableEq

/-- Model of `close_socket`: `ws_sockets.remove` runs only when the socket
is present (the source guards with `in`); `input_sockets.remove` is
unconditional.  `List.erase` removes the first occurrence; the theorems
below only close sockets that are registered, matching the source's
non-crashing runs (`list.remove` raises when absent). -/
def close_socket (client_socket : Nat) (reg : Registry) : Registry :=
  { input_sockets := reg.input_sockets.erase client_socket
    ws_sockets :=
      if client_socket ∈ reg.ws_sockets then
        reg.ws_sockets.erase client_socket
      else reg.ws_sockets }

/-- Model of `handle_new_connection`: the accepted socket is appended to
`input_sockets` only. -/
def handle_new_connection (client_socket : Nat) (reg : Registry) : Registry :=
  { reg with input_sockets := reg.input_sockets ++ [client_socket] }

/-- The 101 response of `handle_ws_handshake_request`, for a given
accept value. -/
def handshake_response (accept : List Char) : List Char :=
  ("HTTP/1.1 101 Switching Protocols\r\n".data ++
   "Upgrade: websocket\r\n".data ++
   "Connection: Upgrade\r\n".data ++
   "Sec-WebSocket-Accept: ".data) ++ accept ++ ("\r\n".data ++ "\r\n".data)

/-- The accept value as a character list, as used when building the 101
response (`sec_websocket_accept_value.decode()`). -/
def generate_sec_websocket_accept_chars (k : List Char) : List Char :=
  (generate_sec_websocket_accept ⟨k⟩).data

/-- Model of `handle_ws_handshake_request`: appends the socket to
`ws_sockets`, derives the accept value from the `sec-websocket-key` header
and sends the 101 response.  A missing key makes
`generate_sec_websocket_accept(None)` raise (`none`); the validator has
always established the key when the source reaches this call. -/
def handle_ws_handshake_request (client_socket : Nat) (reg : Registry)
    (headers_map : List (List Char × List Char)) :
    Option (Registry × List Char) :=
  match dictGet headers_map "sec-websocket-key".data with
  | none => none
  | some k =>
    some ({ reg with ws_sockets := reg.ws_sockets ++ [client_socket] },
      handshake_response (generate_sec_websocket_accept_chars k))

/-- Model of the `while True` read loop of `handle_websocket_message`:
`reads` lists the successive `recv` results.  A zero-length read closes
the socket and stops; any other read is bound to `data_in_bytes` and then
*discarded* — nothing is buffered and no frame is decoded — and the loop
immediately issues the next `recv`.  The second component counts the
`recv` calls made.  `none` models the loop blocking forever on `recv`
with `reads` exhausted. -/
def handle_websocket_message (reads : List (List Nat)) (client_socket : Nat)
    (reg : Registry) : Option (Registry × Nat) :=
  match reads with
  | [] => none
  | d :: rest =>
    if d = [] then some (close_socket client_socket reg, 1)
    else
      (handle_websocket_message rest client_socket reg).map
        (fun r => (r.1, r.2 + 1))

/-- Python `message_segment[-4:]`. -/
def lastFour (l : List Char) : List Char := l.drop (l.length - 4)

/-- The read loop of `handle_request`: accumulate `message += segment`
until a zero-length read (peer closed, first component `none`) or until
`len(message) > 4 and message_segment[-4:] == '\r\n\r\n'` (request
complete, first component `some message`).  Counts `recv` calls; `none`
overall models blocking forever. -/
def hrLoop (reads : List (List Char)) (message : List Char) :
    Option (Option (List Char) × Nat) :=
  match reads with
  | [] => none
  | seg :: rest =>
    if seg = [] then some (none, 1)
    else
      if (message ++ seg).length > 4 ∧ lastFour seg = crlf2 then
        some (some (message ++ seg), 1)
      else
        (hrLoop rest (message ++ seg)).map (fun r => (r.1, r.2 + 1))

def DEFAULT_HTTP_RESPONSE : List Char :=
  "<HTML><HEAD><meta http-equiv=\"content-type\"\ncontent=\"text/html;charset=utf-8\">\r\n\n<TITLE>200 OK</TITLE></HEAD><BODY>\r\n\n<H1>200 OK</H1>\r\n\nWelcome to the default.\r\n\n</BODY></HTML>\r\n\r\n".data

/-- Model of `handle_request`: run the read loop; a zero-length read
closes the socket with nothing sent; otherwise parse the request
(an exception propagating as `none`), then route on the target: the
WebSocket endpoint runs the validator and either performs the handshake
or sends 400 and closes; any other target gets the default 200 response
and is closed.  Result: new registry, messages sent, `recv` count. -/
def handle_request (reads : List (List Char)) (client_socket : Nat)
    (reg : Registry) : Option (Registry × List (List Char) × Nat) :=
  (hrLoop reads []).bind (fun r =>
    match r.1 with
    | none => some (close_socket client_socket reg, [], r.2)
    | some msg =>
      (parse_request msg).bind (fun pr =>
        if pr.2.1 = WS_ENDPOINT then
          (is_valid_ws_handshake_request pr.1 pr.2.1 pr.2.2.1 pr.2.2.2).bind
            (fun valid =>
              if valid then
                (handle_ws_handshake_request client_socket reg pr.2.2.2).map
                  (fun hr => (hr.1, [hr.2], r.2))
              else
                some (close_socket client_socket reg,
                  ["HTTP/1.1 400 Bad Request".data], r.2))
        else
          some (close_socket client_socket reg,
            ["HTTP/1.1 200 OK\r\n\r\n".data ++ DEFAULT_HTTP_RESPONSE], r.2)))

/-- The registry invariant of claim C10: every WebSocket socket is
registered. -/
def wsSubInput (reg : Registry) : Prop :=
  ∀ x ∈ reg.ws_sockets, x ∈ reg.input_sockets

instance (reg : Registry) : Decidable (wsSubInput reg) :=
  List.decidableBAll (fun x => x ∈ reg.input_sockets) reg.ws_sockets

theorem maskFrom_length (key : List Nat) (i : Nat) (p : List Nat) :
    (maskFrom key i p).length = p.length := by
  induction p generalizing i with
  | nil => rfl
  | cons b rest ih => simp [maskFrom, ih]

theorem maskFrom_maskFrom (key : List Nat) (i : Nat) (p : List Nat) :
    maskFrom key i (maskFrom key i p) = p := by
  induction p generalizing i with
  | nil => rfl
  | cons b rest ih =>
    simp only [maskFrom, Nat.xor_assoc, Nat.xor_self, Nat.xor_zero, ih]

/-- Claim C7.  The masking rule of `_parse_payload` is an involution: for
every key and every payload byte sequence, XORing each byte with
`key[i % 4]` twice restores the original sequence.  (This holds for every
key, in particular for every 4-byte key as the claim states.) -/
theorem c7_masking_involution (key p : List Nat) :
    maskBytes key (maskBytes key p) = p :=
  maskFrom_maskFrom key 0 p

/-! ## Claims C1, C5, C7 -/
set_option maxRecDepth 4000 in
/-- Claim C1.  The 64-bit length branch of `_parse_payload_length` does
not recover the encoded length: a frame whose extended length field is
the 8-byte big-endian encoding of `65536` (bytes `00 00 00 00 00 01 00 00`
at positions 2–9) decodes to payload length `256`, because the slice
`data_in_bytes[2:9]` covers only seven of the eight length bytes.  The
mask offset `10` is still reported as the spec states. -/
theorem c1_length_127_branch_drops_last_byte :
    fromBytesBE [0, 0, 0, 0, 0, 1, 0, 0] = 65536 ∧
    parse_payload_length
      ([129, 255] ++ [0, 0, 0, 0, 0, 1, 0, 0] ++ [1, 2, 3, 4]) = (256, 10) ∧
    (256 : Nat) ≠ 65536 := by
  refine ⟨by decide, ?_, by decide⟩
  decide

theorem and_127_of_add_128 (n : Nat) (h : n < 128) : (128 + n) &&& 127 = n := by
  have h127 : (127 : Nat) = 2 ^ 7 - 1 := by decide
  rw [h127, Nat.and_pow_two_sub_one_eq_mod]
  omega

theorem and_128_of_add_128 (n : Nat) (h : n < 128) : (128 + n) &&& 128 = 128 := by
  have h128 : (128 : Nat) = 2 ^ 7 := by decide
  rw [h128, Nat.and_two_pow]
  have : (128 + n).testBit 7 = true := by
    rw [Nat.testBit_to_div_mod]
    simp only [decide_eq_true_eq]
    omega
  simp [this]

theorem populate_masked_lit (b0 n : Nat) (key t : List Nat)
    (hkey : key.length = 4) (hn : n < 126) :
    (populateFromWebsocketFrameMessage (b0 :: (128 + n) :: (key ++ t))).payload_length
      = n ∧
    (populateFromWebsocketFrameMessage (b0 :: (128 + n) :: (key ++ t))).payload_data
      = if n = 0 then [] else maskBytes key t := by
  have h128 : n < 128 := by omega
  have hpl : (128 + n) &&& 127 = n := and_127_of_add_128 _ h128
  have hmask : (128 + n) &&& 128 = 128 := and_128_of_add_128 _ h128
  have hne126 : n ≠ 126 := by omega
  have hne127 : n ≠ 127 := by omega
  have hlen : parse_payload_length (b0 :: (128 + n) :: (key ++ t)) = (n, 2) := by
    simp [parse_payload_length, hpl, hne126, hne127]
  have htake : ((key ++ t).take 4) = key := by
    rw [← hkey, List.take_left]
  have hdrop : ((key ++ t).drop 4) = t := by
    rw [← hkey, List.drop_left]
  constructor
  · simp [populateFromWebsocketFrameMessage, hlen]
  · simp [populateFromWebsocketFrameMessage, hlen, hmask, parse_payload, htake, hdrop]

/-- Claim C5 (amended form).  For a masked frame with a literal length
byte (`payload length ≤ 125`), the decoder XOR-unmasks *all* bytes from
the payload start to the end of the buffer: when the buffer ends exactly
at the frame boundary the payload is exactly `payload length` bytes, each
wire byte XORed with `key[i % 4]`; when extra bytes trail the frame they
are unmasked and appended to the payload as well (except that a zero
`payload length` always yields an empty payload). -/
theorem c5_payload_is_unmasked_tail (b0 : Nat) (key w extra : List Nat)
    (hkey : key.length = 4) (hw : w.length ≤ 125) :
    (populateFromWebsocketFrameMessage
        (b0 :: (128 + w.length) :: (key ++ w))).payload_data
      = maskBytes key w ∧
    (populateFromWebsocketFrameMessage
        (b0 :: (128 + w.length) :: (key ++ w))).payload_data.length
      = w.length ∧
    (populateFromWebsocketFrameMessage
        (b0 :: (128 + w.length) :: (key ++ w))).payload_length = w.length ∧
    (w ≠ [] →
      (populateFromWebsocketFrameMessage
          (b0 :: (128 + w.length) :: (key ++ (w ++ extra)))).payload_data
        = maskBytes key (w ++ extra)) ∧
    (w = [] →
      (populateFromWebsocketFrameMessage
          (b0 :: (128 + w.length) :: (key ++ (w ++ extra)))).payload_data
        = []) := by
  have hn : w.length < 126 := by omega
  have h1 := populate_masked_lit b0 w.length key w hkey hn
  have h2 := populate_masked_lit b0 w.length key (w ++ extra) hkey hn
  have hpd : (populateFromWebsocketFrameMessage
      (b0 :: (128 + w.length) :: (key ++ w))).payload_data = maskBytes key w := by
    rw [h1.2]
    rcases w with _ | ⟨b, rest⟩
    · simp [maskBytes, maskFrom]
    · simp
  refine ⟨hpd, ?_, h1.1, ?_, ?_⟩
  · rw [hpd, maskBytes, maskFrom_length]
  · intro hne
    rw [h2.2, if_neg (by simpa using hne)]
  · intro hnil
    subst hnil
    rw [h2.2]
    simp

/-- Witness for `c5_payload_is_unmasked_tail` at a concrete frame:
masking key `[1,2,3,4]`, payload `"hi"` on the wire as `[105, 107]`,
one trailing byte. -/
theorem c5_payload_is_unmasked_tail_witness :
    (populateFromWebsocketFrameMessage
        ([129] ++ [130] ++ ([1, 2, 3, 4] ++ [105, 107]))).payload_data
      = [104, 105] ∧
    (populateFromWebsocketFrameMessage
        ([129] ++ [130] ++ ([1, 2, 3, 4] ++ [105, 107] ++ [99]))).payload_data
      = [104, 105, 96] := by
  have h := c5_payload_is_unmasked_tail 129 [1, 2, 3, 4] [105, 107] [99]
    (by decide) (by decide)
  refine ⟨?_, ?_⟩
  · have h1 := h.1
    simpa using h1
  · have h4 := h.2.2.2.1 (by decide)
    simpa using h4

/-- Claim C5 (counterexample).  A buffer holding one complete masked frame
(`fin/text`, payload length 1, masking key `[1,2,3,4]`, wire payload
`[105]` which unmasks to `[104]`) followed by one extra trailing byte `99`
decodes to a payload of length `2`, not the decoded `payload_length` of
`1`: `_parse_payload` slices from the payload start to the end of the
buffer. -/
theorem c5_extra_bytes_leak_into_payload :
    (populateFromWebsocketFrameMessage
        [129, 129, 1, 2, 3, 4, 105, 99]).payload_length = 1 ∧
    (populateFromWebsocketFrameMessage
        [129, 129, 1, 2, 3, 4, 105, 99]).payload_data = [104, 97] ∧
    (populateFromWebsocketFrameMessage
        [129, 129, 1, 2, 3, 4, 105, 99]).payload_data.length = 2 := by
  refine ⟨?_, ?_, ?_⟩ <;> decide

set_option maxRecDepth 100000 in
/-- Claim C4.  The accept-key derivation (`generate_sec_websocket_accept`
= base64 of the SHA-1 digest of the key concatenated with the magic
string `258EAFA5-E914-47DA-95CA-C5AB0DC85B11`) maps the RFC 6455 sample
key `"dGhlIHNhbXBsZSBub25jZQ=="` to `"s3pPLMBiTxaQ9kYGzzhZRbK+xOo="`. -/
theorem c4_accept_key_rfc_vector :
    generate_sec_websocket_accept "dGhlIHNhbXBsZSBub25jZQ==" =
      "s3pPLMBiTxaQ9kYGzzhZRbK+xOo=" := by
  decide

theorem splitSeqAux_congr (sep : List Char) (hsep : sep ≠ []) :
    ∀ fuel s, s.length ≤ fuel →
      splitSeqAux sep fuel s = splitSeqAux sep s.length s := by
  intro fuel
  induction fuel using Nat.strong_induction_on with
  | _ fuel ih =>
    intro s hs
    cases s with
    | nil => cases fuel <;> rfl
    | cons c rest =>
      cases fuel with
      | zero => simp at hs
      | succ f =>
        have hr : rest.length ≤ f := by simpa using hs
        have hsl : 1 ≤ sep.length := by
          cases sep with
          | nil => exact absurd rfl hsep
          | cons a b => simp
        have hd : ((c :: rest).drop sep.length).length ≤ f := by
          simp only [List.length_drop, List.length_cons]
          omega
        have hd' : ((c :: rest).drop sep.length).length ≤ rest.length := by
          simp only [List.length_drop, List.length_cons]
          omega
        show splitSeqAux sep (f + 1) (c :: rest)
            = splitSeqAux sep (rest.length + 1) (c :: rest)
        simp only [splitSeqAux]
        by_cases hpre : sep.isPrefixOf (c :: rest)
        · simp only [hpre, if_true]
          rw [ih f (by omega) _ hd, ih rest.length (by omega) _ hd']
        · rw [ih f (by omega) rest hr]
          simp only [hpre, Bool.false_eq_true, if_false]

theorem splitSeq_nil (sep : List Char) : splitSeq sep [] = [[]] := rfl

theorem splitSeq_cons (sep : List Char) (hsep : sep ≠ []) (c : Char)
    (rest : List Char) :
    splitSeq sep (c :: rest) =
      if sep.isPrefixOf (c :: rest) then
        [] :: splitSeq sep ((c :: rest).drop sep.length)
      else
        match splitSeq sep rest with
        | [] => [[c]]
        | g :: gs => (c :: g) :: gs := by
  have hsl : 1 ≤ sep.length := by
    cases sep with
    | nil => exact absurd rfl hsep
    | cons a b => simp
  have hd' : ((c :: rest).drop sep.length).length ≤ rest.length := by
    simp only [List.length_drop, List.length_cons]
    omega
  show splitSeqAux sep (rest.length + 1) (c :: rest) = _
  simp only [splitSeqAux]
  by_cases hpre : sep.isPrefixOf (c :: rest)
  · simp only [hpre, if_true]
    rw [splitSeqAux_congr sep hsep rest.length _ hd']
    rfl
  · simp only [hpre, if_false]
    rfl

theorem splitSeq_ne_nil (sep : List Char) (hsep : sep ≠ []) (s : List Char) :
    splitSeq sep s ≠ [] := by
  induction s with
  | nil => simp [splitSeq_nil]
  | cons c rest ih =>
    rw [splitSeq_cons sep hsep]
    by_cases hpre : sep.isPrefixOf (c :: rest)
    · simp [hpre]
    · simp only [hpre, if_false]
      cases h : splitSeq sep rest with
      | nil => simp
      | cons g gs => simp

theorem isPrefixOf_self_append (l t : List Char) :
    l.isPrefixOf (l ++ t) = true := by
  induction l with
  | nil => simp [List.isPrefixOf]
  | cons c rest ih => simp [List.isPrefixOf, ih]

theorem not_isPrefixOf_cons_of_ne (s0 c : Char) (st rest : List Char)
    (h : c ≠ s0) : (s0 :: st).isPrefixOf (c :: rest) = false := by
  simp only [List.isPrefixOf, Bool.and_eq_false_iff]
  left
  simp only [beq_eq_false_iff_ne, ne_eq]
  exact fun he => h he.symm

theorem containsSeq_eq_false (s0 : Char) (st l : List Char) (h : s0 ∉ l) :
    containsSeq (s0 :: st) l = false := by
  induction l with
  | nil => simp [containsSeq, List.isPrefixOf]
  | cons c rest ih =>
    have hc : c ≠ s0 := fun he => h (he ▸ List.mem_cons_self c rest)
    have hr : s0 ∉ rest := fun hm => h (List.mem_cons_of_mem c hm)
    simp [containsSeq, not_isPrefixOf_cons_of_ne s0 c st rest hc, ih hr]

theorem splitSeq_eq_single (sep : List Char) (hsep : sep ≠ []) (l : List Char)
    (h : containsSeq sep l = false) : splitSeq sep l = [l] := by
  induction l with
  | nil => simp [splitSeq_nil]
  | cons c rest ih =>
    simp only [containsSeq, Bool.or_eq_false_iff] at h
    rw [splitSeq_cons sep hsep, h.1]
    simp only [Bool.false_eq_true, if_false]
    rw [ih h.2]

theorem splitSeq_append (s0 : Char) (st a b : List Char) (h : s0 ∉ a) :
    splitSeq (s0 :: st) (a ++ (s0 :: st) ++ b) = a :: splitSeq (s0 :: st) b := by
  induction a with
  | nil =>
    simp only [List.nil_append]
    have : (s0 :: st) ++ b = s0 :: (st ++ b) := rfl
    rw [this, splitSeq_cons (s0 :: st) (by simp)]
    have hpre : (s0 :: st).isPrefixOf (s0 :: (st ++ b)) = true := by
      have : s0 :: (st ++ b) = (s0 :: st) ++ b := rfl
      rw [this]
      exact isPrefixOf_self_append _ _
    rw [hpre]
    simp only [if_true]
    have : (s0 :: (st ++ b)).drop (s0 :: st).length = b := by
      have h2 : s0 :: (st ++ b) = (s0 :: st) ++ b := rfl
      rw [h2, List.drop_left]
    rw [this]
  | cons x a' ih =>
    have hx : x ≠ s0 := fun he =>
      h (he ▸ List.mem_cons_self x a')
    have ha' : s0 ∉ a' := fun hm => h (List.mem_cons_of_mem x hm)
    have : (x :: a') ++ (s0 :: st) ++ b = x :: (a' ++ (s0 :: st) ++ b) := by
      simp
    rw [this, splitSeq_cons (s0 :: st) (by simp)]
    have hpre : (s0 :: st).isPrefixOf (x :: (a' ++ (s0 :: st) ++ b)) = false :=
      not_isPrefixOf_cons_of_ne s0 x st _ hx
    rw [hpre]
    simp only [Bool.false_eq_true, if_false]
    rw [ih ha']

theorem headGroup_append (s0 : Char) (st a s : List Char) (h : s0 ∉ a) :
    headGroup (s0 :: st) (a ++ s) = a ++ headGroup (s0 :: st) s := by
  induction a with
  | nil => simp
  | cons x a' ih =>
    have hx : x ≠ s0 := fun he => h (he ▸ List.mem_cons_self x a')
    have ha' : s0 ∉ a' := fun hm => h (List.mem_cons_of_mem x hm)
    have hco : (x :: a') ++ s = x :: (a' ++ s) := rfl
    rw [hco]
    unfold headGroup
    rw [splitSeq_cons (s0 :: st) (by simp),
      not_isPrefixOf_cons_of_ne s0 x st _ hx]
    simp only [Bool.false_eq_true, if_false]
    cases hsp : splitSeq (s0 :: st) (a' ++ s) with
    | nil => exact absurd hsp (splitSeq_ne_nil _ (by simp) _)
    | cons g gs =>
      simp only [List.getD_cons_zero]
      have h2 := ih ha'
      unfold headGroup at h2
      rw [hsp] at h2
      simp only [List.getD_cons_zero] at h2
      rw [h2]
      simp

theorem headGroup_self_append (s0 : Char) (st b : List Char) :
    headGroup (s0 :: st) ((s0 :: st) ++ b) = [] := by
  unfold headGroup
  have := splitSeq_append s0 st [] b (by simp)
  simp only [List.nil_append] at this
  rw [this]
  rfl

theorem crlf_eq : crlf = '\r' :: ['\n'] := rfl

theorem crlf2_eq : crlf2 = '\r' :: ['\n', '\r', '\n'] := rfl

theorem colonSpace_eq : colonSpace = ':' :: [' '] := rfl

theorem headGroup_crlf2_crlf (x : Char) (xs : List Char) (hx : x ≠ '\r') :
    headGroup crlf2 ('\r' :: '\n' :: x :: xs)
      = '\r' :: '\n' :: headGroup crlf2 (x :: xs) := by
  unfold headGroup
  rw [splitSeq_cons crlf2 (by simp [crlf2])]
  have h1 : crlf2.isPrefixOf ('\r' :: '\n' :: x :: xs) = false := by
    have hxf : ('\r' == x) = false := by
      simp only [beq_eq_false_iff_ne, ne_eq]
      exact fun he => hx he.symm
    simp [crlf2, List.isPrefixOf, hxf]
  rw [h1]
  simp only [Bool.false_eq_true, if_false]
  rw [splitSeq_cons crlf2 (by simp [crlf2])]
  have h2 : crlf2.isPrefixOf ('\n' :: x :: xs) = false := by
    simp [crlf2, List.isPrefixOf]
  rw [h2]
  simp only [Bool.false_eq_true, if_false]
  cases hsp : splitSeq crlf2 (x :: xs) with
  | nil => exact absurd hsp (splitSeq_ne_nil _ (by simp [crlf2]) _)
  | cons g gs => simp

theorem headGroup_crlf2_message (lines : List (List Char)) :
    ∀ l0 body, '\r' ∉ l0 → (∀ l ∈ lines, l ≠ [] ∧ '\r' ∉ l) →
      headGroup crlf2 (joinCRLF (l0 :: lines) ++ crlf2 ++ body)
        = joinCRLF (l0 :: lines) := by
  induction lines with
  | nil =>
    intro l0 body h0 _
    show headGroup crlf2 (l0 ++ crlf2 ++ body) = l0
    rw [List.append_assoc, crlf2_eq,
      headGroup_append '\r' ['\n', '\r', '\n'] l0 _ h0,
      headGroup_self_append]
    simp
  | cons l1 ls ih =>
    intro l0 body h0 hl
    have h1 := hl l1 (List.mem_cons_self l1 ls)
    obtain ⟨x, l1', hx⟩ := List.exists_cons_of_ne_nil h1.1
    have hxr : x ≠ '\r' := by
      intro he
      exact h1.2 (by rw [hx, he]; exact List.mem_cons_self _ _)
    have hJ : ∃ T, joinCRLF (l1 :: ls) = x :: T := by
      cases ls with
      | nil => exact ⟨l1', by simp [joinCRLF, hx]⟩
      | cons l2 ls' =>
        refine ⟨l1' ++ crlf ++ joinCRLF (l2 :: ls'), ?_⟩
        show l1 ++ crlf ++ joinCRLF (l2 :: ls') = _
        simp [hx]
    obtain ⟨T, hT⟩ := hJ
    show headGroup crlf2
        ((l0 ++ crlf ++ joinCRLF (l1 :: ls)) ++ crlf2 ++ body)
      = l0 ++ crlf ++ joinCRLF (l1 :: ls)
    have hre : (l0 ++ crlf ++ joinCRLF (l1 :: ls)) ++ crlf2 ++ body
        = l0 ++ (crlf ++ (joinCRLF (l1 :: ls) ++ crlf2 ++ body)) := by
      simp [List.append_assoc]
    rw [hre, crlf2_eq, headGroup_append '\r' ['\n', '\r', '\n'] l0 _ h0,
      ← crlf2_eq]
    have hmid : crlf ++ (joinCRLF (l1 :: ls) ++ crlf2 ++ body)
        = '\r' :: '\n' :: (x :: (T ++ crlf2 ++ body)) := by
      rw [crlf_eq, hT]
      simp [List.append_assoc]
    rw [hmid, headGroup_crlf2_crlf x _ hxr]
    have hback : x :: (T ++ crlf2 ++ body)
        = joinCRLF (l1 :: ls) ++ crlf2 ++ body := by
      rw [hT]
      simp [List.append_assoc]
    rw [hback, ih l1 body h1.2 (fun l hm => hl l (List.mem_cons_of_mem l1 hm))]
    simp [List.append_assoc, crlf_eq]

theorem splitSeq_crlf_joinCRLF (lines : List (List Char)) :
    ∀ l0, '\r' ∉ l0 → (∀ l ∈ lines, '\r' ∉ l) →
      splitSeq crlf (joinCRLF (l0 :: lines)) = l0 :: lines := by
  induction lines with
  | nil =>
    intro l0 h0 _
    exact splitSeq_eq_single crlf (by simp [crlf]) l0
      (by rw [crlf_eq]; exact containsSeq_eq_false '\r' ['\n'] l0 h0)
  | cons l1 ls ih =>
    intro l0 h0 hl
    show splitSeq crlf (l0 ++ crlf ++ joinCRLF (l1 :: ls)) = l0 :: l1 :: ls
    rw [crlf_eq, splitSeq_append '\r' ['\n'] l0 _ h0, ← crlf_eq,
      ih l1 (hl l1 (List.mem_cons_self l1 ls))
        (fun l hm => hl l (List.mem_cons_of_mem l1 hm))]

theorem splitSeq_space_reqline (m t v : List Char)
    (hm : ' ' ∉ m) (ht : ' ' ∉ t) (hv : ' ' ∉ v) :
    splitSeq [' '] (m ++ [' '] ++ (t ++ [' '] ++ v)) = [m, t, v] := by
  have h1 : ([' '] : List Char) = ' ' :: [] := rfl
  rw [h1, splitSeq_append ' ' [] m _ hm, splitSeq_append ' ' [] t v ht,
    splitSeq_eq_single (' ' :: []) (by simp) v
      (containsSeq_eq_false ' ' [] v hv)]

theorem splitSeq_colonspace_line (n v : List Char)
    (hn : ':' ∉ n) (hv : containsSeq colonSpace v = false) :
    splitSeq colonSpace (n ++ colonSpace ++ v) = [n, v] := by
  rw [colonSpace_eq, splitSeq_append ':' [' '] n v hn,
    splitSeq_eq_single (':' :: [' ']) (by simp) v (by rw [← colonSpace_eq]; exact hv)]

theorem dictInsert_of_not_mem (m : List (List Char × List Char))
    (k v : List Char) (h : m.any (fun p => p.1 == k) = false) :
    dictInsert m k v = m ++ [(k, v)] := by
  simp [dictInsert, h]

theorem insertAll_disjoint :
    ∀ (l m : List (List Char × List Char)),
      (∀ p ∈ l, m.any (fun q => q.1 == p.1) = false) →
      (l.map Prod.fst).Nodup →
      insertAll m l = m ++ l := by
  intro l
  induction l with
  | nil => intro m _ _; simp [insertAll]
  | cons p l' ih =>
    intro m hdis hnd
    have h1 : dictInsert m p.1 p.2 = m ++ [p] := by
      rw [dictInsert_of_not_mem m p.1 p.2 (hdis p (List.mem_cons_self p l'))]
    have hstep : insertAll m (p :: l') = insertAll (m ++ [p]) l' := by
      show insertAll (dictInsert m p.1 p.2) l' = _
      rw [h1]
    rw [hstep, ih (m ++ [p]) ?_ ?_]
    · simp
    · intro q hq
      have hql : q.1 ∈ l'.map Prod.fst := List.mem_map_of_mem Prod.fst hq
      have hne : p.1 ≠ q.1 := by
        intro he
        rw [List.map_cons] at hnd
        exact (List.nodup_cons.mp hnd).1 (he ▸ hql)
      have hm := hdis q (List.mem_cons_of_mem p hq)
      simp only [List.any_append, Bool.or_eq_false_iff]
      refine ⟨hm, ?_⟩
      simp [hne]
    · rw [List.map_cons] at hnd
      exact (List.nodup_cons.mp hnd).2

theorem headerFold_map :
    ∀ (hs : List (List Char × List Char)) (m : List (List Char × List Char)),
      (∀ p ∈ hs, ':' ∉ p.1 ∧ containsSeq colonSpace p.2 = false) →
      headerFold m (hs.map headerLine)
        = some (insertAll m (hs.map (fun p => (lowerChars p.1, p.2)))) := by
  intro hs
  induction hs with
  | nil => intro m _; simp [headerFold, insertAll]
  | cons p hs' ih =>
    intro m hc
    have hp := hc p (List.mem_cons_self p hs')
    simp only [List.map_cons, headerFold, headerLine]
    rw [splitSeq_colonspace_line p.1 p.2 hp.1 hp.2]
    show headerFold (dictInsert m (lowerChars p.1) p.2) (List.map headerLine hs')
        = _
    rw [ih (dictInsert m (lowerChars p.1) p.2)
      (fun q hq => hc q (List.mem_cons_of_mem p hq))]
    rfl

theorem headerFold_of_bad_line :
    ∀ (lines : List (List Char)) (m : List (List Char × List Char))
      (entry : List Char), entry ∈ lines →
      (splitSeq colonSpace entry).length ≠ 2 → headerFold m lines = none := by
  intro lines
  induction lines with
  | nil => intro m entry h; exact absurd h (List.not_mem_nil entry)
  | cons e rest ih =>
    intro m entry hmem hlen
    rcases List.mem_cons.mp hmem with he | hr
    · subst he
      rcases hsp : splitSeq colonSpace entry with _ | ⟨n, _ | ⟨v, _ | ⟨w, ws⟩⟩⟩
      · simp [headerFold, hsp]
      · simp [headerFold, hsp]
      · rw [hsp] at hlen
        simp at hlen
      · simp [headerFold, hsp]
    · rcases hsp : splitSeq colonSpace e with _ | ⟨n, _ | ⟨v, _ | ⟨w, ws⟩⟩⟩
      · simp [headerFold, hsp]
      · simp [headerFold, hsp]
      · simp only [headerFold, hsp]
        exact ih _ entry hr hlen
      · simp [headerFold, hsp]

theorem parse_request_build (m t v body : List Char)
    (hs : List (List Char × List Char))
    (hm : ' ' ∉ m ∧ '\r' ∉ m) (ht : ' ' ∉ t ∧ '\r' ∉ t)
    (hv : ' ' ∉ v ∧ '\r' ∉ v)
    (hhs : ∀ p ∈ hs, '\r' ∉ p.1 ∧ ':' ∉ p.1 ∧ '\r' ∉ p.2 ∧
      containsSeq colonSpace p.2 = false)
    (hnd : (hs.map (fun p => lowerChars p.1)).Nodup) :
    parse_request (buildRequest m t v hs body)
      = some (m, t, v, hs.map (fun p => (lowerChars p.1, p.2))) := by
  have hreqr : '\r' ∉ requestLine m t v := by
    simp only [requestLine, List.mem_append, List.mem_singleton]
    rintro ((hc | hc) | (hc | hc) | hc)
    · exact hm.2 hc
    · simp at hc
    · exact ht.2 hc
    · simp at hc
    · exact hv.2 hc
  have hlines : ∀ l ∈ hs.map headerLine, l ≠ [] ∧ '\r' ∉ l := by
    intro l hl
    obtain ⟨p, hp, he⟩ := List.mem_map.mp hl
    have hc := hhs p hp
    subst he
    constructor
    · simp [headerLine, colonSpace]
    · simp only [headerLine, colonSpace, List.mem_append]
      rintro ((hc' | hc') | hc')
      · exact hc.1 hc'
      · simp at hc'
      · exact hc.2.2.1 hc'
  have hsection : (splitSeq crlf2 (buildRequest m t v hs body)).getD 0 []
      = joinCRLF (requestLine m t v :: hs.map headerLine) :=
    headGroup_crlf2_message (hs.map headerLine) (requestLine m t v) body
      hreqr hlines
  have hsplit : splitSeq crlf
      (joinCRLF (requestLine m t v :: hs.map headerLine))
      = requestLine m t v :: hs.map headerLine :=
    splitSeq_crlf_joinCRLF (hs.map headerLine) (requestLine m t v) hreqr
      (fun l hl => (hlines l hl).2)
  have hreqsplit : splitSeq [' '] (requestLine m t v) = [m, t, v] :=
    splitSeq_space_reqline m t v hm.1 ht.1 hv.1
  have hfold := headerFold_map hs []
    (fun p hp => ⟨(hhs p hp).2.1, (hhs p hp).2.2.2⟩)
  have hall : insertAll [] (hs.map (fun p => (lowerChars p.1, p.2)))
      = hs.map (fun p => (lowerChars p.1, p.2)) := by
    have := insertAll_disjoint (hs.map (fun p => (lowerChars p.1, p.2))) []
      (by intro p _; rfl)
      (by
        have hmm : (hs.map (fun p => (lowerChars p.1, p.2))).map Prod.fst
            = hs.map (fun p => lowerChars p.1) := by
          simp [List.map_map]
        rw [hmm]
        exact hnd)
    simpa using this
  unfold parse_request
  rw [hsection, hsplit]
  simp only [List.getD_cons_zero, List.drop_succ_cons, List.drop_zero,
    hreqsplit]
  rw [hfold, hall]
  rfl

theorem parse_request_bad_request_line (request : List Char)
    (h : (splitSeq [' ']
      ((splitSeq crlf ((splitSeq crlf2 request).getD 0 [])).getD 0 [])).length
        ≠ 3) :
    parse_request request = none := by
  unfold parse_request
  rcases hsp : splitSeq [' ']
      ((splitSeq crlf ((splitSeq crlf2 request).getD 0 [])).getD 0 []) with
    _ | ⟨a, _ | ⟨b, _ | ⟨c, _ | _⟩⟩⟩
  · rfl
  · rfl
  · rfl
  · rw [hsp] at h
    simp at h
  · rfl

theorem parse_request_bad_header (request entry : List Char)
    (hmem : entry ∈
      (splitSeq crlf ((splitSeq crlf2 request).getD 0 [])).drop 1)
    (hlen : (splitSeq colonSpace entry).length ≠ 2) :
    parse_request request = none := by
  unfold parse_request
  rcases hsp : splitSeq [' ']
      ((splitSeq crlf ((splitSeq crlf2 request).getD 0 [])).getD 0 []) with
    _ | ⟨a, _ | ⟨b, _ | ⟨c, _ | _⟩⟩⟩
  · rfl
  · rfl
  · rfl
  · rw [headerFold_of_bad_line _ [] entry hmem hlen]
    rfl
  · rfl

theorem c6_parse_request_roundtrip :
    (∀ (m t v body : List Char) (hs : List (List Char × List Char)),
      (' ' ∉ m ∧ '\r' ∉ m) → (' ' ∉ t ∧ '\r' ∉ t) → (' ' ∉ v ∧ '\r' ∉ v) →
      (∀ p ∈ hs, '\r' ∉ p.1 ∧ ':' ∉ p.1 ∧ '\r' ∉ p.2 ∧
        containsSeq colonSpace p.2 = false) →
      (hs.map (fun p => lowerChars p.1)).Nodup →
      parse_request (buildRequest m t v hs body)
        = some (m, t, v, hs.map (fun p => (lowerChars p.1, p.2))) ∧
      (hs.map (fun p => (lowerChars p.1, p.2))).length = hs.length) ∧
    (∀ request : List Char,
      (splitSeq [' ']
        ((splitSeq crlf ((splitSeq crlf2 request).getD 0 [])).getD 0
          [])).length ≠ 3 →
      parse_request request = none) ∧
    (∀ request entry : List Char,
      entry ∈ (splitSeq crlf ((splitSeq crlf2 request).getD 0 [])).drop 1 →
      (splitSeq colonSpace entry).length ≠ 2 →
      parse_request request = none) :=
  ⟨fun m t v body hs hm ht hv hhs hnd =>
    ⟨parse_request_build m t v body hs hm ht hv hhs hnd, by simp⟩,
   parse_request_bad_request_line,
   parse_request_bad_header⟩

set_option maxRecDepth 100000 in
theorem c6_parse_request_roundtrip_witness :
    parse_request
        (buildRequest "GET".data "/websocket".data "HTTP/1.1".data
          [("Host".data, "x".data)] [])
      = some ("GET".data, "/websocket".data, "HTTP/1.1".data,
          [("host".data, "x".data)]) ∧
    parse_request "GET /\r\n\r\n".data = none ∧
    parse_request "GET / HTTP/1.1\r\nnoseparator\r\n\r\n".data = none := by
  refine ⟨?_, ?_, ?_⟩
  · have h := (c6_parse_request_roundtrip.1 "GET".data "/websocket".data
      "HTTP/1.1".data [] [("Host".data, "x".data)]
      (by decide) (by decide) (by decide) (by decide) (by decide)).1
    rw [h]
    rfl
  · exact c6_parse_request_roundtrip.2.1 "GET /\r\n\r\n".data (by decide)
  · exact c6_parse_request_roundtrip.2.2
      "GET / HTTP/1.1\r\nnoseparator\r\n\r\n".data "noseparator".data
      (by decide) (by decide)

set_option maxRecDepth 100000 in
theorem c6_header_value_with_colon_space_is_rejected :
    parse_request "GET / HTTP/1.1\r\nA: b: c\r\n\r\n".data = none ∧
    containsSeq colonSpace "A: b: c".data = true := by
  constructor
  · rfl
  · decide

theorem dictMem_of_get (m : List (List Char × List Char)) (k v : List Char)
    (h : dictGet m k = some v) : dictMem m k = true := by
  induction m with
  | nil => simp [dictGet] at h
  | cons p rest ih =>
    unfold dictGet at h
    unfold dictMem
    rw [List.find?_cons] at h
    cases hpk : (p.1 == k) with
    | true => simp [hpk]
    | false =>
      rw [hpk] at h
      simp only [List.any_cons, hpk, Bool.false_or]
      exact ih h

theorem c3_validator_iff (method target http_version : List Char)
    (headers_map : List (List Char × List Char)) (q : ℚ)
    (hq : http_version_number http_version = some q) :
    (is_valid_ws_handshake_request method target http_version headers_map
        = some true
      ↔ (method = "GET".data ∧ q ≥ 11 / 10 ∧
         dictGet headers_map "upgrade".data = some "websocket".data ∧
         dictGet headers_map "connection".data = some "Upgrade".data ∧
         dictMem headers_map "sec-websocket-key".data = true)) ∧
    (∀ target2 : List Char,
      is_valid_ws_handshake_request method target http_version headers_map
        = is_valid_ws_handshake_request method target2 http_version
            headers_map) := by
  refine ⟨?_, fun target2 => rfl⟩
  unfold is_valid_ws_handshake_request
  rw [hq, Option.map_some', Option.some_inj]
  simp only [ws_handshake_checks, Bool.and_eq_true, beq_iff_eq,
    decide_eq_true_eq]
  constructor
  · rintro ⟨⟨hg, hv⟩, ⟨⟨hmU, hU⟩, ⟨hmC, hC⟩⟩, hk⟩
    exact ⟨hg, hv, hU, hC, hk⟩
  · rintro ⟨hg, hv, hU, hC, hk⟩
    exact ⟨⟨hg, hv⟩, ⟨⟨dictMem_of_get _ _ _ hU, hU⟩,
      ⟨dictMem_of_get _ _ _ hC, hC⟩⟩, hk⟩

theorem http_version_1_1 :
    http_version_number "HTTP/1.1".data = some (11 / 10 : ℚ) := by
  have h0 : http_version_number "HTTP/1.1".data
      = some ((natOfDigits ['1'] : ℚ)
          + (natOfDigits ['1'] : ℚ) / (10 : ℚ) ^ 1) := rfl
  rw [h0]
  norm_num [natOfDigits, show '1'.toNat - 48 = 1 from rfl]

theorem c3_validator_ignores_target :
    is_valid_ws_handshake_request "GET".data "/nope".data "HTTP/1.1".data
      exampleHeaders = some true ∧
    ("/nope".data ≠ WS_ENDPOINT) := by
  constructor
  · unfold is_valid_ws_handshake_request
    rw [http_version_1_1, Option.map_some', Option.some_inj]
    simp only [ws_handshake_checks]
    rw [decide_eq_true (show ((11 : ℚ) / 10 ≥ 11 / 10) from le_rfl)]
    decide
  · decide

theorem c3_validator_iff_witness :
    is_valid_ws_handshake_request "GET".data WS_ENDPOINT "HTTP/1.1".data
      exampleHeaders = some true ∧
    is_valid_ws_handshake_request "POST".data WS_ENDPOINT "HTTP/1.1".data
      exampleHeaders ≠ some true := by
  constructor
  · exact (c3_validator_iff "GET".data WS_ENDPOINT "HTTP/1.1".data
        exampleHeaders (11 / 10) http_version_1_1).1.mpr
      ⟨rfl, le_rfl, rfl, rfl, by decide⟩
  · intro hcon
    have h := (c3_validator_iff "POST".data WS_ENDPOINT "HTTP/1.1".data
        exampleHeaders (11 / 10) http_version_1_1).1.mp hcon
    have : ("POST".data : List Char) ≠ "GET".data := by decide
    exact this h.1

theorem hrLoop_zero_read (pre rest : List (List Char)) :
    ∀ message, (∀ p ∈ pre, p ≠ [] ∧ lastFour p ≠ crlf2) →
      hrLoop (pre ++ [] :: rest) message = some (none, pre.length + 1) := by
  induction pre with
  | nil => intro message _; simp [hrLoop]
  | cons p pre' ih =>
    intro message h
    have hp := h p (List.mem_cons_self p pre')
    have hcond : ¬((message ++ p).length > 4 ∧ lastFour p = crlf2) :=
      fun hc => hp.2 hc.2
    simp only [List.cons_append, hrLoop, if_neg hp.1, if_neg hcond,
      List.append_eq]
    rw [ih (message ++ p) (fun q hq => h q (List.mem_cons_of_mem p hq))]
    rfl

theorem wsLoop_zero_read (pre rest : List (List Nat)) (client_socket : Nat)
    (reg : Registry) (h : ∀ p ∈ pre, p ≠ []) :
    handle_websocket_message (pre ++ [] :: rest) client_socket reg
      = some (close_socket client_socket reg, pre.length + 1) := by
  induction pre with
  | nil => simp [handle_websocket_message]
  | cons p pre' ih =>
    have hp := h p (List.mem_cons_self p pre')
    simp only [List.cons_append, handle_websocket_message, if_neg hp,
      List.append_eq]
    rw [ih (fun q hq => h q (List.mem_cons_of_mem p hq))]
    rfl

theorem c9_close_before_terminator (pre rest : List (List Char))
    (client_socket : Nat) (reg : Registry)
    (h : ∀ p ∈ pre, p ≠ [] ∧ lastFour p ≠ crlf2) :
    handle_request (pre ++ [] :: rest) client_socket reg
      = some (close_socket client_socket reg, [], pre.length + 1) ∧
    (reg.input_sockets.Nodup →
      client_socket ∉ (close_socket client_socket reg).input_sockets) := by
  constructor
  · unfold handle_request
    rw [hrLoop_zero_read pre rest [] h]
    rfl
  · intro hnd
    show client_socket ∉ reg.input_sockets.erase client_socket
    intro hmem
    exact ((List.Nodup.mem_erase_iff hnd).mp hmem).1 rfl

theorem c9_close_before_terminator_witness :
    handle_request ([['G']] ++ [] :: []) 5 ⟨[5], []⟩
      = some (⟨[], []⟩, [], 2) ∧
    (5 : Nat) ∉ (close_socket 5 ⟨[5], []⟩).input_sockets := by
  have h := c9_close_before_terminator [['G']] [] 5 ⟨[5], []⟩ (by decide)
  constructor
  · rw [h.1]
    decide
  · exact h.2 (by decide)

theorem c8_inner_loop_drains :
    (∀ (pre rest : List (List Nat)) (client_socket : Nat) (reg : Registry),
      (∀ p ∈ pre, p ≠ []) →
      handle_websocket_message (pre ++ [] :: rest) client_socket reg
        = some (close_socket client_socket reg, pre.length + 1)) ∧
    (∀ (pre rest : List (List Char)) (message : List Char),
      (∀ p ∈ pre, p ≠ [] ∧ lastFour p ≠ crlf2) →
      hrLoop (pre ++ [] :: rest) message = some (none, pre.length + 1)) :=
  ⟨fun pre rest cs reg h => wsLoop_zero_read pre rest cs reg h,
   fun pre rest msg h => hrLoop_zero_read pre rest msg h⟩

theorem c8_inner_loop_drains_witness :
    handle_websocket_message ([[104], [105]] ++ [] :: []) 2 ⟨[2], [2]⟩
      = some (⟨[], []⟩, 3) ∧
    hrLoop ([[('a' : Char)]] ++ [] :: []) [] = some (none, 2) := by
  constructor
  · rw [c8_inner_loop_drains.1 [[104], [105]] [] 2 ⟨[2], [2]⟩ (by decide)]
    rfl
  · rw [c8_inner_loop_drains.2 [[('a' : Char)]] [] [] (by decide)]
    decide

theorem c8_two_reads_in_one_iteration :
    handle_websocket_message [[104], []] 9 ⟨[9], [9]⟩
      = some (⟨[], []⟩, 2) ∧ 2 > 1 := by
  constructor
  · rfl
  · decide

/-- Claim C2.  A WebSocket-classified socket that becomes ready with a
complete masked text frame on the wire (`\x81\x82` + zero key + `"hi"`,
which the frame decoder would decode to payload `[104, 105]` of length 2)
is handled by reading the bytes, discarding them, reading again, and
closing on the zero-length read: no bytes are buffered and the frame
decoder is never invoked — `handle_websocket_message` only loops on
`recv` until a zero-length read. -/
theorem c2_ws_handler_discards_frame :
    handle_websocket_message [[129, 130, 0, 0, 0, 0, 104, 105], []] 3
        ⟨[3], [3]⟩ = some (⟨[], []⟩, 2) ∧
    (populateFromWebsocketFrameMessage
        [129, 130, 0, 0, 0, 0, 104, 105]).payload_data = [104, 105] ∧
    (populateFromWebsocketFrameMessage
        [129, 130, 0, 0, 0, 0, 104, 105]).payload_length = 2 :=
  ⟨rfl, by decide, by decide⟩

theorem c10_registry_invariant :
    (∀ (reg : Registry) (c : Nat), wsSubInput reg →
      wsSubInput (handle_new_connection c reg) ∧
      (handle_new_connection c reg).ws_sockets = reg.ws_sockets) ∧
    (∀ (reg : Registry) (c : Nat) (hm : List (List Char × List Char))
        (reg2 : Registry) (resp : List Char),
      wsSubInput reg → c ∈ reg.input_sockets →
      handle_ws_handshake_request c reg hm = some (reg2, resp) →
      wsSubInput reg2 ∧ reg2.input_sockets = reg.input_sockets ∧
      reg2.ws_sockets = reg.ws_sockets ++ [c]) ∧
    (∀ (reg : Registry) (c : Nat), wsSubInput reg →
      reg.input_sockets.Nodup → reg.ws_sockets.Nodup →
      wsSubInput (close_socket c reg) ∧
      c ∉ (close_socket c reg).input_sockets ∧
      c ∉ (close_socket c reg).ws_sockets) := by
  refine ⟨?_, ?_, ?_⟩
  · intro reg c hsub
    refine ⟨?_, rfl⟩
    intro x hx
    exact List.mem_append_left [c] (hsub x hx)
  · intro reg c hm reg2 resp hsub hin hh
    unfold handle_ws_handshake_request at hh
    cases hk : dictGet hm "sec-websocket-key".data with
    | none => rw [hk] at hh; exact absurd hh (by simp)
    | some k =>
      rw [hk] at hh
      simp only [Option.some_inj] at hh
      obtain ⟨hr, _⟩ := Prod.mk.injEq .. ▸ hh
      subst hr
      refine ⟨?_, rfl, rfl⟩
      intro x hx
      rcases List.mem_append.mp hx with hx | hx
      · exact hsub x hx
      · rw [List.mem_singleton.mp hx]
        exact hin
  · intro reg c hsub hndi hndw
    refine ⟨?_, ?_, ?_⟩
    · intro x hx
      unfold close_socket at hx ⊢
      by_cases hc : c ∈ reg.ws_sockets
      · rw [if_pos hc] at hx
        have hx' := (List.Nodup.mem_erase_iff hndw).mp hx
        exact List.mem_erase_of_ne hx'.1 |>.mpr (hsub x hx'.2)
      · rw [if_neg hc] at hx
        have hxc : x ≠ c := fun he => hc (he ▸ hx)
        exact List.mem_erase_of_ne hxc |>.mpr (hsub x hx)
    · intro hmem
      exact ((List.Nodup.mem_erase_iff hndi).mp hmem).1 rfl
    · show c ∉ (if c ∈ reg.ws_sockets then reg.ws_sockets.erase c
        else reg.ws_sockets)
      by_cases hc : c ∈ reg.ws_sockets
      · rw [if_pos hc]
        intro hmem
        exact ((List.Nodup.mem_erase_iff hndw).mp hmem).1 rfl
      · rw [if_neg hc]
        exact hc

theorem c10_registry_invariant_witness :
    (wsSubInput (handle_new_connection 7 ⟨[1], [1]⟩)) ∧
    (wsSubInput ⟨[1, 2], [1, 2]⟩ ∧
      (⟨[1, 2], [1, 2]⟩ : Registry).input_sockets = [1, 2]) ∧
    (wsSubInput (close_socket 2 ⟨[1, 2], [2]⟩) ∧
      (2 : Nat) ∉ (close_socket 2 ⟨[1, 2], [2]⟩).input_sockets ∧
      (2 : Nat) ∉ (close_socket 2 ⟨[1, 2], [2]⟩).ws_sockets) := by
  refine ⟨?_, ?_, ?_⟩
  · exact (c10_registry_invariant.1 ⟨[1], [1]⟩ 7 (by decide)).1
  · have h := c10_registry_invariant.2.1 ⟨[1, 2], [1]⟩ 2 exampleHeaders
      ⟨[1, 2], [1, 2]⟩
      (handshake_response (generate_sec_websocket_accept_chars
        "dGhlIHNhbXBsZSBub25jZQ==".data))
      (by decide) (by decide) rfl
    exact ⟨h.1, h.2.1⟩
  · exact c10_registry_invariant.2.2 ⟨[1, 2], [2]⟩ 2 (by decide) (by decide)
      (by decide)
